import Mathlib

/-
Shallow embedding of the json-template engine (src/json-template.js, current
revision; src/unnamed/part_000, older revision of the same class).

Modelling conventions, each tied to the JS/DOM semantics of the source:
* JSON-like values are the inductive JVal; records are read-only.  The JS
  `in` operator is modelled as own-property membership (JSON data carries no
  inherited properties); for arrays the own properties are the canonical
  numeric indices and "length".  Applying `in` to null or to a primitive
  throws a TypeError in JS; such throws are modelled as Except.error.
* DOM trees are the inductive Node: plain elements (tag, attributes,
  childNodes), template elements (attributes plus their content fragment;
  their light-DOM childNodes list is empty, as produced by the HTML parser),
  text nodes and processing instructions.  A DocumentFragment is a plain
  List Node; replaceChild/appendChild with a fragment splices the fragment's
  children, so every structural edit is modelled as mapping one child to the
  list of nodes that replace it.
* `el.innerHTML = v` parses the string form of v; scalars used by this
  engine are plain text, modelled as a single text node (the empty string
  parses to no node at all).  Per WebIDL, innerHTML is
  [LegacyNullToEmptyString], so assigning null writes the empty string.
  On a template element the innerHTML setter writes through to the content
  fragment, which the engine may already hold a reference to.
* The worklist of fillKey (seeded with target.children, extended with the
  children of keyless nodes) visits element children breadth-first, but each
  visit edits only the visited node's own position among its siblings, so
  the final tree is the same as the recursive rendering used here.
-/

/-- JSON-like values fed to the engine (JSON numbers restricted to
integers, which is all the claims exercise). -/
inductive JVal where
  | str (s : String)
  | num (n : Int)
  | bool (b : Bool)
  | null
  | obj (fields : List (String × JVal))
  | arr (elems : List JVal)

/-- Own-property lookup on an object's field list (records are assumed
well-formed: one binding per key). -/
def jvalLookup : List (String × JVal) → String → Option JVal
  | [], _ => none
  | (a, v) :: r, k => if a == k then some v else jvalLookup r k

/-- The canonical array index denoted by a property name, if any:
JS arrays own exactly the properties "0", "1", ... below length
(and "length"). -/
def strToIndex (k : String) (len : Nat) : Option Nat :=
  match k.toNat? with
  | some i => if k == toString i && i < len then some i else none
  | none => none

/-- JS `k in data`: own-property membership; throws a TypeError when data
is null or a primitive. -/
def hasMemberE : JVal → String → Except Unit Bool
  | .obj fs, k => .ok (jvalLookup fs k).isSome
  | .arr xs, k => .ok (k == "length" || (strToIndex k xs.length).isSome)
  | _, _ => .error ()

/-- JS `data[k]`, defined where `k in data` holds (elsewhere it defaults
to null, a case the engine never reaches behind its `in` guards). -/
def getMemberD : JVal → String → JVal
  | .obj fs, k => (jvalLookup fs k).getD .null
  | .arr xs, k =>
    if k == "length" then .num (Int.ofNat xs.length)
    else
      match strToIndex k xs.length with
      | some i => xs.getD i .null
      | none => .null
  | _, _ => .null

/-- JS `typeof v == 'string' || typeof v == 'number'`. -/
def isStrNum : JVal → Bool
  | .str _ => true
  | .num _ => true
  | _ => false

/-- JS `v instanceof Object` (false for null and primitives). -/
def isJsObject : JVal → Bool
  | .obj _ => true
  | .arr _ => true
  | _ => false

/-- JS `typeof v === 'object'` — true for objects, arrays AND null. -/
def jsTypeofObject : JVal → Bool
  | .obj _ => true
  | .arr _ => true
  | .null => true
  | _ => false

def joinComma (l : List String) : String := String.intercalate "," l

mutual
/-- JS String(v): strings unchanged, numbers printed, booleans
"true"/"false", null "null", plain objects "[object Object]", arrays
joined by commas (null entries joining as empty, per Array.prototype.join). -/
def jsString : JVal → String
  | .str s => s
  | .num n => toString n
  | .bool b => if b then "true" else "false"
  | .null => "null"
  | .obj _ => "[object Object]"
  | .arr xs => joinComma (jsItemList xs)

def jsItemList : List JVal → List String
  | [] => []
  | .null :: r => "" :: jsItemList r
  | v :: r => jsString v :: jsItemList r
end

/-- String written by the innerHTML setter for value v: String(v), except
null which [LegacyNullToEmptyString] converts to the empty string. -/
def innerHTMLStr : JVal → String
  | .null => ""
  | v => jsString v

mutual
/-- Data values containing no null anywhere (the domain on which the
placeholder path walk of the current revision cannot throw). -/
def noNulls : JVal → Bool
  | .null => false
  | .str _ => true
  | .num _ => true
  | .bool _ => true
  | .obj fs => noNullsFields fs
  | .arr xs => noNullsArr xs

def noNullsFields : List (String × JVal) → Bool
  | [] => true
  | (_, v) :: r => noNulls v && noNullsFields r

def noNullsArr : List JVal → Bool
  | [] => true
  | v :: r => noNulls v && noNullsArr r
end

/-- DOM nodes: plain elements, template elements (attrs + content
fragment), text nodes, processing instructions. -/
inductive Node where
  | elem (tag : String) (attrs : List (String × String)) (kids : List Node)
  | tmpl (attrs : List (String × String)) (content : List Node)
  | text (s : String)
  | pi (ptarget : String) (pdata : String)

/-- getAttribute on an attribute list. -/
def getAttr : List (String × String) → String → Option String
  | [], _ => none
  | (a, v) :: r, n => if a == n then some v else getAttr r n

/-- setAttribute: overwrite in place, else append (attribute order as kept
by the DOM). -/
def setAttrJS : List (String × String) → String → String → List (String × String)
  | [], n, v => [(n, v)]
  | (a, b) :: r, n, v => if a == n then (a, v) :: r else (a, b) :: setAttrJS r n v

/-- JS truthiness of an optional string: undefined and "" are falsy. -/
def nonEmptyS : Option String → Option String
  | some s => if s == "" then none else some s
  | none => none

/-- Line 100 of the current revision: a slot element's non-empty name wins,
otherwise the element's data-key attribute (dataset.key); a missing or
empty key is falsy, hence no binding. -/
def bindingKeyOf (tag : String) (attrs : List (String × String)) : Option String :=
  if tag == "slot" then
    match nonEmptyS (getAttr attrs "name") with
    | some n => some n
    | none => nonEmptyS (getAttr attrs "data-key")
  else nonEmptyS (getAttr attrs "data-key")

/-- Membership of target.children: elements only (template elements are
elements too); text and processing instructions are skipped by fillKey. -/
def isElemNode : Node → Bool
  | .elem _ _ _ => true
  | .tmpl _ _ => true
  | _ => false

/-- The string a scalar assignment renders: innerHTML parses plain text
into a single text node, the empty string into no node. -/
def parseHTML (s : String) : List Node := if s == "" then [] else [.text s]

mutual
/-- Concatenated text content of a node (template content is inert and
renders nothing). -/
def renderedText : Node → String
  | .text s => s
  | .elem _ _ kids => renderedTextList kids
  | .tmpl _ _ => ""
  | .pi _ _ => ""

def renderedTextList : List Node → String
  | [] => ""
  | n :: r => renderedText n ++ renderedTextList r
end

/-- Word character for the regex word boundary (JS \b uses [A-Za-z0-9_]). -/
def isWordChar (c : Char) : Bool := c.isAlphanum || c == '_'

def stripPrefixCh : List Char → List Char → Option (List Char)
  | [], s => some s
  | _ :: _, [] => none
  | p :: ps, c :: cs => if p == c then stripPrefixCh ps cs else none

/-- Attempt of the directive regex at one position: the literal pattern
(field name, '=', '"'), then a non-empty capture of non-quote characters
closed by '"' (the `([^"]+)"` part). -/
def tryField (pat : List Char) (s : List Char) : Option (List Char) :=
  match stripPrefixCh pat s with
  | none => none
  | some rest =>
    let cap := rest.takeWhile (fun c => c != '"')
    if cap.isEmpty then none
    else
      match rest.drop cap.length with
      | '"' :: _ => some cap
      | _ => none

/-- Leftmost-match scan of the regex \bfield="([^"]+)" over a directive's
data: prevW tracks whether the previous character was a word character
(the pattern starts with a word character, so \b holds exactly when it
was not). -/
def matchFieldAux (pat : List Char) : Bool → List Char → Option (List Char)
  | _, [] => none
  | prevW, c :: rest =>
    if prevW then matchFieldAux pat (isWordChar c) rest
    else
      match tryField pat (c :: rest) with
      | some cap => some cap
      | none => matchFieldAux pat (isWordChar c) rest

/-- pi.data.match of /\bfield="([^"]+)"/ , returning the capture group. -/
def matchField (field : String) (s : String) : Option String :=
  (matchFieldAux (field.toList ++ ['=', '"']) false s.toList).map
    (fun l => String.mk l)

/-- One attr directive (lines 174-188 of the current revision, identically
lines 94-108 of the older): parse name then key with the two regexes; a
failed parse throws and is caught (warn, skip); with both parsed, set the
attribute only when the key is a member of the record, coercing the value
with String(); a TypeError from `key in data` is caught by the same
try/catch and skips the directive. -/
def applyDirective (data : JVal) (pd : String) (attrs : List (String × String)) :
    List (String × String) :=
  match matchField "name" pd with
  | none => attrs
  | some nm =>
    match matchField "key" pd with
    | none => attrs
    | some ky =>
      match hasMemberE data ky with
      | .ok true => setAttrJS attrs nm (jsString (getMemberD data ky))
      | _ => attrs

/-- Directive pass: each attr-targeted processing instruction is handled
independently (a failure in one never stops the next). -/
def applyDirectives (data : JVal) : List String → List (String × String) → List (String × String)
  | [], attrs => attrs
  | d :: ds, attrs => applyDirectives data ds (applyDirective data d attrs)

/-- The processing-instruction children whose target is attr, in document
order (the filter on line 170-172). -/
def piDirectives : List Node → List String
  | [] => []
  | .pi t d :: r => if t == "attr" then d :: piDirectives r else piDirectives r
  | _ :: r => piDirectives r

/-- Leftmost match of /\$\{([^}]+)\}/ : splits cs into the text before the
token, the non-empty capture between the braces, and the text after the
closing brace.  An empty capture or a missing closing brace is not a
match; with no closing brace ahead at all, no later token can exist. -/
def findToken : List Char → Option (List Char × List Char × List Char)
  | [] => none
  | '$' :: '{' :: rest =>
    (match rest.drop (rest.takeWhile (fun c => c != '}')).length with
     | '}' :: after =>
       if (rest.takeWhile (fun c => c != '}')).isEmpty then
         (findToken ('{' :: rest)).map (fun r => ('$' :: r.1, r.2.1, r.2.2))
       else some ([], rest.takeWhile (fun c => c != '}'), after)
     | _ => none)
  | c :: rest => (findToken rest).map (fun r => (c :: r.1, r.2.1, r.2.2))

/-- attr.value.match(/\$\{([^}]+)\}/): does the value contain a token. -/
def hasToken (s : String) : Bool := (findToken s.toList).isSome

theorem findToken_rest_lt : ∀ (cs p i r : List Char), findToken cs = some (p, i, r) → r.length < cs.length := by
  intro cs
  induction cs with
  | nil => intro p i r h; simp [findToken] at h
  | cons c rest ih =>
    intro p i r h
    rw [findToken.eq_def] at h
    split at h
    · exact Option.noConfusion h
    · rename_i rest1 heq
      injection heq with hc hrest
      subst hc; subst hrest
      split at h
      · rename_i after heq2
        split at h
        · rcases hf : findToken ('{' :: rest1) with _ | v <;> rw [hf] at h
          · exact Option.noConfusion h
          · obtain ⟨p1, i1, r1⟩ := v
            simp only [Option.map_some'] at h
            injection h with h1
            cases h1
            have := ih p1 i r hf
            simp only [List.length_cons] at *
            omega
        · injection h with h1
          cases h1
          have hlen := congrArg List.length heq2
          simp only [List.length_drop, List.length_cons] at hlen
          simp only [List.length_cons]
          omega
      · exact Option.noConfusion h
    · rename_i heq
      injection heq with hc hrest
      subst hc; subst hrest
      rcases hf : findToken rest with _ | v <;> rw [hf] at h
      · exact Option.noConfusion h
      · obtain ⟨p1, i1, r1⟩ := v
        simp only [Option.map_some'] at h
        injection h with h1
        cases h1
        have := ih p1 i r hf
        simp only [List.length_cons]
        omega

/-- The reduce of lines 194-199 (current revision): walk the dot-separated
path segment by segment, starting from the record.  JS tests
`typeof acc === 'object'` before `cur in acc`; null passes the typeof test
(typeof null is 'object') and then `cur in null` throws a TypeError; any
other non-object yields '' and the fold keeps going with that string. -/
def pathReduce : List String → JVal → Except Unit JVal
  | [], acc => .ok acc
  | cur :: rest, acc =>
    match acc with
    | .null => .error ()
    | .obj fs =>
      match hasMemberE (.obj fs) cur with
      | .ok true => pathReduce rest (getMemberD (.obj fs) cur)
      | _ => pathReduce rest (.str "")
    | .arr xs =>
      match hasMemberE (.arr xs) cur with
      | .ok true => pathReduce rest (getMemberD (.arr xs) cur)
      | _ => pathReduce rest (.str "")
    | _ => pathReduce rest (.str "")

/-- JS key.split('.') on the capture's characters: every dot separates,
empty segments included, and the empty capture yields one empty segment. -/
def splitDots : List Char → List (List Char)
  | [] => [[]]
  | '.' :: r => [] :: splitDots r
  | c :: r =>
    match splitDots r with
    | s :: ss => (c :: s) :: ss
    | [] => [[c]]

/-- Replacement computed for one ${...} capture by the current revision:
split on dots, reduce, coerce the result with String() (done by
String.replace on the callback's return value). -/
def substCur (data : JVal) (inner : List Char) : Except Unit String := do
  let v ← pathReduce ((splitDots inner).map (fun l => String.mk l)) data
  .ok (jsString v)

/-- Replacement computed for one ${...} capture by the older revision
(part_000 line 112): the whole capture is a single key; `key in data`
decides between the member's string form and the literal token text
(and throws on primitive/null data, outside any try). -/
def substOld (data : JVal) (inner : List Char) : Except Unit String :=
  match hasMemberE data (String.mk inner) with
  | .error _ => .error ()
  | .ok true => .ok (jsString (getMemberD data (String.mk inner)))
  | .ok false => .ok (String.mk ('$' :: '{' :: (inner ++ ['}'])))

/-- attr.value.replace(/\$\{([^}]+)\}/g, ...): rewrite every token left to
right with the given callback; text between and around tokens is kept, and
replacement text is never rescanned. -/
def replaceTokensWith (sub : List Char → Except Unit String) (cs : List Char) :
    Except Unit (List Char) :=
  match hfind : findToken cs with
  | none => .ok cs
  | some (p, inner, rest) => do
    let s ← sub inner
    let tail ← replaceTokensWith sub rest
    .ok (p ++ s.toList ++ tail)
termination_by cs.length
decreasing_by exact findToken_rest_lt cs p inner rest hfind

/-- Placeholder pass on one attribute value (lines 190-201): the value is
rewritten only when it matches the token regex at all. -/
def applyPlaceholder (data : JVal) (v : String) : Except Unit String :=
  if hasToken v then (replaceTokensWith (substCur data) v.toList).map (fun l => String.mk l)
  else .ok v

/-- Placeholder pass of the older revision (part_000 lines 110-114). -/
def oldApplyPlaceholder (data : JVal) (v : String) : Except Unit String :=
  if hasToken v then (replaceTokensWith (substOld data) v.toList).map (fun l => String.mk l)
  else .ok v

/-- Map the placeholder pass over the attribute list in order; an uncaught
TypeError from a path walk aborts the whole fill. -/
def attrsPlaceholderPass (pl : String → Except Unit String) :
    List (String × String) → Except Unit (List (String × String))
  | [] => .ok []
  | (a, v) :: r => do
    let v' ← pl v
    let r' ← attrsPlaceholderPass pl r
    .ok ((a, v') :: r')

/-- fillAttrs of the current revision on one node, as a function of its
attribute list: the directive pass over the attr-targeted processing
instructions among its childNodes, then the placeholder pass over the
resulting attributes. -/
def fillAttrsE (data : JVal) (childNodes : List Node) (attrs : List (String × String)) :
    Except Unit (List (String × String)) :=
  attrsPlaceholderPass (applyPlaceholder data) (applyDirectives data (piDirectives childNodes) attrs)

/-- fillAttrs of the older revision: identical directive pass, older
placeholder pass. -/
def oldFillAttrsE (data : JVal) (childNodes : List Node) (attrs : List (String × String)) :
    Except Unit (List (String × String)) :=
  attrsPlaceholderPass (oldApplyPlaceholder data) (applyDirectives data (piDirectives childNodes) attrs)

mutual
/-- fillKey of the current revision (lines 89-167), as the transformation of
a child list: the worklist visits element children; text and processing
instructions stay in place.  Each visited element is mapped to the list of
nodes that replace it in its parent (empty for removal, several when a
fragment is spliced in). -/
def fillNodes (data : JVal) : List Node → Except Unit (List Node)
  | [] => .ok []
  | n :: rest =>
    if isElemNode n then do
      let a ← processChild data n
      let b ← fillNodes data rest
      .ok (a ++ b)
    else do
      let b ← fillNodes data rest
      .ok (n :: b)
termination_by ns => (sizeOf ns, 0, 0)

/-- One visited child: fillAttrs first (line 96, which may rewrite the
data-key attribute itself before line 100 reads it), then the key dispatch.
For a template element the light-DOM childNodes list is empty (no
directives, nothing to push for the keyless case) and 'content' in ch
holds; for a plain element it does not.  The scalar branch performs
ch.innerHTML = data[key] and then replaceChild(el, ch): on a template, el
is the content fragment the innerHTML setter just wrote through, so the
spliced result is exactly the parsed text. -/
def processChild (data : JVal) : Node → Except Unit (List Node)
  | .elem tag attrs kids => do
    let attrs' ← fillAttrsE data kids attrs
    match bindingKeyOf tag attrs' with
    | none => do
      let kids' ← fillNodes data kids
      .ok [.elem tag attrs' kids']
    | some k => do
      let present ← hasMemberE data k
      if present then
        if isJsObject (getMemberD data k) then
          match getMemberD data k with
          | .arr entries => expandEntries data false tag attrs' kids entries
          | v => do
            let kids' ← fillNodes v kids
            .ok [.elem tag attrs' kids']
        else .ok [.elem tag attrs' (parseHTML (innerHTMLStr (getMemberD data k)))]
      else .ok []
  | .tmpl attrs content => do
    let attrs' ← fillAttrsE data [] attrs
    match bindingKeyOf "template" attrs' with
    | none => .ok [.tmpl attrs' content]
    | some k => do
      let present ← hasMemberE data k
      if present then
        if isJsObject (getMemberD data k) then
          match getMemberD data k with
          | .arr entries => expandEntries data true "template" attrs' content entries
          | v => fillNodes v content
        else .ok (parseHTML (innerHTMLStr (getMemberD data k)))
      else .ok []
  | n => .ok [n]
termination_by n => (sizeOf n, 1, 0)

/-- The array branch (lines 120-147): one stencil clone per entry, appended
to one fragment which then replaces the single bound node — modelled as
the concatenation of the per-entry node lists.  isT says whether the
stencil wraps template content (then each clone is a fresh copy of the
content fragment, kids); otherwise each clone is a copy of the element
itself (tag, attrs, kids). -/
def expandEntries (data : JVal) (isT : Bool) (tag : String)
    (attrs : List (String × String)) (kids : List Node) :
    List JVal → Except Unit (List Node)
  | [] => .ok []
  | e :: rest => do
    let el ← entryFill data isT tag attrs kids e
    let more ← expandEntries data isT tag attrs kids rest
    .ok (el ++ more)
termination_by es => (sizeOf kids, 0, 2 * es.length + 2)

/-- One array entry (lines 126-138).  A scalar entry: fillAttrs on the clone
against the whole record, then el.innerHTML = entry — but when the stencil
wraps template content the clone is a DocumentFragment, on which the
directive pass's setAttribute throws (caught: a warning), the placeholder
pass is skipped ('attributes' in el is false), and the innerHTML assignment
is a plain expando property write that leaves the children untouched, so
the content clone is inserted unchanged.  A non-scalar entry: recurse
fillKey(clone, entry) over the clone's children. -/
def entryFill (data : JVal) (isT : Bool) (tag : String)
    (attrs : List (String × String)) (kids : List Node) (e : JVal) :
    Except Unit (List Node) :=
  if isT then
    if isStrNum e then .ok kids
    else fillNodes e kids
  else
    if isStrNum e then do
      let attrs' ← fillAttrsE data kids attrs
      .ok [.elem tag attrs' (parseHTML (innerHTMLStr e))]
    else do
      let kids' ← fillNodes e kids
      .ok [.elem tag attrs kids']
termination_by (sizeOf kids, 0, 1)
end

mutual
/-- fillKey of the older revision (part_000 lines 38-87); same worklist
shape as the current one. -/
def oldFillNodes (data : JVal) : List Node → Except Unit (List Node)
  | [] => .ok []
  | n :: rest =>
    if isElemNode n then do
      let a ← oldProcessChild data n
      let b ← oldFillNodes data rest
      .ok (a ++ b)
    else do
      let b ← oldFillNodes data rest
      .ok (n :: b)
termination_by ns => (sizeOf ns, 0, 0)

/-- One visited child of the older revision: the key comes from dataset.key
only (no slot handling); the guard is `key && key in data`, whose failure
pushes the node's children (never a removal).  Inside the guard: a
string/number assigns innerHTML in place (no replacement, no template
collapsing); an array expands; `typeof data[key] == 'object'` (objects and
null) collapses-and-recurses; anything else — e.g. a boolean — matches no
branch, so the node and its subtree stay untouched and its children are
not pushed. -/
def oldProcessChild (data : JVal) : Node → Except Unit (List Node)
  | .elem tag attrs kids => do
    let attrs' ← oldFillAttrsE data kids attrs
    match nonEmptyS (getAttr attrs' "data-key") with
    | none => do
      let kids' ← oldFillNodes data kids
      .ok [.elem tag attrs' kids']
    | some k => do
      let present ← hasMemberE data k
      if present then
        if isStrNum (getMemberD data k) then
          .ok [.elem tag attrs' (parseHTML (innerHTMLStr (getMemberD data k)))]
        else
          match getMemberD data k with
          | .arr entries => oldExpandEntries data false tag attrs' kids entries
          | v =>
            if jsTypeofObject v then do
              let kids' ← oldFillNodes v kids
              .ok [.elem tag attrs' kids']
            else .ok [.elem tag attrs' kids]
      else do
        let kids' ← oldFillNodes data kids
        .ok [.elem tag attrs' kids']
  | .tmpl attrs content => do
    let attrs' ← oldFillAttrsE data [] attrs
    match nonEmptyS (getAttr attrs' "data-key") with
    | none => .ok [.tmpl attrs' content]
    | some k => do
      let present ← hasMemberE data k
      if present then
        if isStrNum (getMemberD data k) then
          .ok [.tmpl attrs' (parseHTML (innerHTMLStr (getMemberD data k)))]
        else
          match getMemberD data k with
          | .arr entries => oldExpandEntries data true "template" attrs' content entries
          | v =>
            if jsTypeofObject v then oldFillNodes v content
            else .ok [.tmpl attrs' content]
      else .ok [.tmpl attrs' content]
  | n => .ok [n]
termination_by n => (sizeOf n, 1, 0)

/-- Array branch of the older revision (part_000 lines 48-70), textually
the same loop as the current one but recursing into the older engine. -/
def oldExpandEntries (data : JVal) (isT : Bool) (tag : String)
    (attrs : List (String × String)) (kids : List Node) :
    List JVal → Except Unit (List Node)
  | [] => .ok []
  | e :: rest => do
    let el ← oldEntryFill data isT tag attrs kids e
    let more ← oldExpandEntries data isT tag attrs kids rest
    .ok (el ++ more)
termination_by es => (sizeOf kids, 0, 2 * es.length + 2)

/-- One array entry of the older revision (part_000 lines 51-63). -/
def oldEntryFill (data : JVal) (isT : Bool) (tag : String)
    (attrs : List (String × String)) (kids : List Node) (e : JVal) :
    Except Unit (List Node) :=
  if isT then
    if isStrNum e then .ok kids
    else oldFillNodes e kids
  else
    if isStrNum e then do
      let attrs' ← oldFillAttrsE data kids attrs
      .ok [.elem tag attrs' (parseHTML (innerHTMLStr e))]
    else do
      let kids' ← oldFillNodes e kids
      .ok [.elem tag attrs kids']
termination_by (sizeOf kids, 0, 1)
end

/-- Kind of object passed as fill's target once selectors are resolved:
a DOM Element, some other node supporting appendChild (for instance a
DocumentFragment), or a value on which appendChild throws. -/
inductive TKind where
  | element
  | fragment
  | other
deriving DecidableEq

/-- Settlement state of the promise fill returns: resolve/reject settle it
once (later calls are ignored); an exception thrown by the async executor
after it already ran past both checks leaves it forever pending. -/
inductive Settled where
  | resolved (ns : List Node)
  | rejected (msg : String)
  | pending

/-- Observable outcome of one fill call: how the promise settled and the
final child list of the target. -/
structure FillResult where
  settled : Settled
  targetChildren : List Node

/-- The `for await` loop of fill (lines 61-72) over the yielded records:
per record, clone the template content, fillKey the clone, push the
clone's childNodes onto the result array, then appendChild the fragment
to the target (which splices those same nodes).  Returns (nodes pushed,
nodes actually appended to the target, did the loop finish without an
exception).  A fillKey exception aborts before that record's push; on a
target without appendChild the append throws after the push. -/
def fillRun (tk : TKind) (content : List Node) : List JVal → List Node × List Node × Bool
  | [] => ([], [], true)
  | r :: rest =>
    match fillNodes r content with
    | .error _ => ([], [], false)
    | .ok out =>
      match tk with
      | .other => (out, [], false)
      | _ =>
        let t := fillRun tk content rest
        (out ++ t.1, out ++ t.2.1, t.2.2)

/-- fill of the current revision (lines 36-76).  The executor calls
reject without returning, so after a failed target or template check it
still runs the loop; the promise keeps the first settlement.  The data
normalization (async iterator / sync iterator / single-record wrap-up) is
abstracted as the list of records the loop receives, in yield order.
With an invalid template, template.content is undefined and the first
iteration throws before touching the target; resolve(nodes) is reached
only when the loop completes. -/
def fill (tk : TKind) (templateOk : Bool) (content : List Node)
    (targetChildren : List Node) (records : List JVal) : FillResult :=
  let rejectMsg : Option String :=
    if tk = TKind.element then
      if templateOk then none else some "Template is not a <template> element."
    else some "Target is not an element."
  let run := if templateOk then fillRun tk content records else ([], [], records.isEmpty)
  { settled :=
      match rejectMsg with
      | some m => .rejected m
      | none => if run.2.2 then .resolved run.1 else .pending
    targetChildren := targetChildren ++ run.2.1 }

/-- Per-record results of a whole loop in which no record throws: the
concatenation, in yield order, of each record's filled clone of the
template content. -/
def fillAll (content : List Node) : List JVal → Except Unit (List Node)
  | [] => .ok []
  | r :: rest => do
    let a ← fillNodes r content
    let b ← fillAll content rest
    .ok (a ++ b)

theorem fillNodes_nil (data : JVal) : fillNodes data [] = .ok [] := by
  rw [fillNodes]

theorem fillNodes_cons_elem (data : JVal) (n : Node) (rest a b : List Node)
    (h1 : isElemNode n = true) (h2 : processChild data n = .ok a)
    (h3 : fillNodes data rest = .ok b) :
    fillNodes data (n :: rest) = .ok (a ++ b) := by
  simp [fillNodes, h1, h2, h3, Bind.bind, Except.bind, Pure.pure, Except.pure]

theorem fillNodes_singleton (data : JVal) (n : Node) (a : List Node)
    (h1 : isElemNode n = true) (h2 : processChild data n = .ok a) :
    fillNodes data [n] = .ok a := by
  simp [fillNodes, h1, h2, Bind.bind, Except.bind, Pure.pure, Except.pure]

theorem fillNodes_cons_skip (data : JVal) (n : Node) (rest b : List Node)
    (h1 : isElemNode n = false) (h3 : fillNodes data rest = .ok b) :
    fillNodes data (n :: rest) = .ok (n :: b) := by
  simp [fillNodes, h1, h3, Bind.bind, Except.bind, Pure.pure, Except.pure]

theorem processChild_elem_keyless (data : JVal) (tag : String)
    (attrs attrs' : List (String × String)) (kids kids' : List Node)
    (h1 : fillAttrsE data kids attrs = .ok attrs')
    (h2 : bindingKeyOf tag attrs' = none)
    (h3 : fillNodes data kids = .ok kids') :
    processChild data (.elem tag attrs kids) = .ok [.elem tag attrs' kids'] := by
  simp [processChild, h1, h2, h3, Bind.bind, Except.bind, Pure.pure, Except.pure]

theorem processChild_elem_removed (data : JVal) (tag : String)
    (attrs attrs' : List (String × String)) (kids : List Node) (k : String)
    (h1 : fillAttrsE data kids attrs = .ok attrs')
    (h2 : bindingKeyOf tag attrs' = some k)
    (h3 : hasMemberE data k = .ok false) :
    processChild data (.elem tag attrs kids) = .ok [] := by
  simp [processChild, h1, h2, h3, Bind.bind, Except.bind, Pure.pure, Except.pure]

theorem processChild_elem_scalar (data : JVal) (tag : String)
    (attrs attrs' : List (String × String)) (kids : List Node) (k : String) (v : JVal)
    (h1 : fillAttrsE data kids attrs = .ok attrs')
    (h2 : bindingKeyOf tag attrs' = some k)
    (h3 : hasMemberE data k = .ok true)
    (h4 : getMemberD data k = v)
    (h5 : isJsObject v = false) :
    processChild data (.elem tag attrs kids) =
      .ok [.elem tag attrs' (parseHTML (innerHTMLStr v))] := by
  simp [processChild, h1, h2, h3, h4, h5, Bind.bind, Except.bind, Pure.pure, Except.pure]

theorem processChild_elem_arr (data : JVal) (tag : String)
    (attrs attrs' : List (String × String)) (kids out : List Node) (k : String)
    (entries : List JVal)
    (h1 : fillAttrsE data kids attrs = .ok attrs')
    (h2 : bindingKeyOf tag attrs' = some k)
    (h3 : hasMemberE data k = .ok true)
    (h4 : getMemberD data k = .arr entries)
    (h5 : expandEntries data false tag attrs' kids entries = .ok out) :
    processChild data (.elem tag attrs kids) = .ok out := by
  simp [processChild, h1, h2, h3, h4, h5, isJsObject, Bind.bind, Except.bind,
    Pure.pure, Except.pure]

theorem processChild_tmpl_arr (data : JVal)
    (attrs attrs' : List (String × String)) (content out : List Node) (k : String)
    (entries : List JVal)
    (h1 : fillAttrsE data [] attrs = .ok attrs')
    (h2 : bindingKeyOf "template" attrs' = some k)
    (h3 : hasMemberE data k = .ok true)
    (h4 : getMemberD data k = .arr entries)
    (h5 : expandEntries data true "template" attrs' content entries = .ok out) :
    processChild data (.tmpl attrs content) = .ok out := by
  simp [processChild, h1, h2, h3, h4, h5, isJsObject, Bind.bind, Except.bind,
    Pure.pure, Except.pure]

theorem expandEntries_nil (data : JVal) (isT : Bool) (tag : String)
    (attrs : List (String × String)) (kids : List Node) :
    expandEntries data isT tag attrs kids [] = .ok [] := by
  rw [expandEntries]

theorem expandEntries_cons (data : JVal) (isT : Bool) (tag : String)
    (attrs : List (String × String)) (kids l m : List Node) (e : JVal)
    (rest : List JVal)
    (h1 : entryFill data isT tag attrs kids e = .ok l)
    (h2 : expandEntries data isT tag attrs kids rest = .ok m) :
    expandEntries data isT tag attrs kids (e :: rest) = .ok (l ++ m) := by
  simp [expandEntries, h1, h2, Bind.bind, Except.bind, Pure.pure, Except.pure]

theorem entryFill_tmpl_scalar (data : JVal) (tag : String)
    (attrs : List (String × String)) (kids : List Node) (e : JVal)
    (h : isStrNum e = true) :
    entryFill data true tag attrs kids e = .ok kids := by
  simp [entryFill, h]

theorem entryFill_tmpl_obj (data : JVal) (tag : String)
    (attrs : List (String × String)) (kids out : List Node) (e : JVal)
    (h : isStrNum e = false) (hk : fillNodes e kids = .ok out) :
    entryFill data true tag attrs kids e = .ok out := by
  simp [entryFill, h, hk]

theorem entryFill_elem_scalar (data : JVal) (tag : String)
    (attrs a2 : List (String × String)) (kids : List Node) (e : JVal)
    (h : isStrNum e = true) (hA : fillAttrsE data kids attrs = .ok a2) :
    entryFill data false tag attrs kids e =
      .ok [.elem tag a2 (parseHTML (innerHTMLStr e))] := by
  simp [entryFill, h, hA, Bind.bind, Except.bind, Pure.pure, Except.pure]

theorem entryFill_elem_obj (data : JVal) (tag : String)
    (attrs : List (String × String)) (kids kids' : List Node) (e : JVal)
    (h : isStrNum e = false) (hk : fillNodes e kids = .ok kids') :
    entryFill data false tag attrs kids e = .ok [.elem tag attrs kids'] := by
  simp [entryFill, h, hk, Bind.bind, Except.bind, Pure.pure, Except.pure]

theorem oldFillNodes_nil (data : JVal) : oldFillNodes data [] = .ok [] := by
  rw [oldFillNodes]

theorem oldFillNodes_singleton (data : JVal) (n : Node) (a : List Node)
    (h1 : isElemNode n = true) (h2 : oldProcessChild data n = .ok a) :
    oldFillNodes data [n] = .ok a := by
  simp [oldFillNodes, h1, h2, Bind.bind, Except.bind, Pure.pure, Except.pure]

theorem oldProcessChild_elem_bool (data : JVal) (tag : String)
    (attrs attrs' : List (String × String)) (kids : List Node) (k : String) (b : Bool)
    (h1 : oldFillAttrsE data kids attrs = .ok attrs')
    (h2 : nonEmptyS (getAttr attrs' "data-key") = some k)
    (h3 : hasMemberE data k = .ok true)
    (h4 : getMemberD data k = .bool b) :
    oldProcessChild data (.elem tag attrs kids) = .ok [.elem tag attrs' kids] := by
  simp [oldProcessChild, h1, h2, h3, h4, isStrNum, jsTypeofObject,
    Bind.bind, Except.bind, Pure.pure, Except.pure]

theorem fillAll_nil (content : List Node) : fillAll content [] = .ok [] := by
  rw [fillAll]

theorem fillAll_cons (content a b : List Node) (r : JVal) (rest : List JVal)
    (h1 : fillNodes r content = .ok a) (h2 : fillAll content rest = .ok b) :
    fillAll content (r :: rest) = .ok (a ++ b) := by
  simp [fillAll, h1, h2, Bind.bind, Except.bind, Pure.pure, Except.pure]

theorem isStrNum_not_jsObject (v : JVal) (h : isStrNum v = true) : isJsObject v = false := by
  cases v <;> simp [isStrNum, isJsObject] at *

theorem innerHTMLStr_of_strNum (v : JVal) (h : isStrNum v = true) :
    innerHTMLStr v = jsString v := by
  cases v <;> simp [isStrNum, innerHTMLStr] at *

theorem renderedTextList_parseHTML (s : String) : renderedTextList (parseHTML s) = s := by
  unfold parseHTML
  split
  · rename_i h
    simp only [beq_iff_eq] at h
    simp [renderedTextList, h]
  · simp [renderedTextList, renderedText]

theorem renderedTextList_elem_parseHTML (tag : String) (attrs : List (String × String))
    (s : String) : renderedTextList [.elem tag attrs (parseHTML s)] = s := by
  simp [renderedTextList, renderedText, renderedTextList_parseHTML]

/-- C1: for every element ch carrying a binding key whose value record[key]
is a scalar (string or number), fillKey replaces ch in its parent with the
chosen node — ch's wrapped template content if ch wraps nested template
content (the innerHTML write on the template goes through to that very
content fragment before it is spliced in), otherwise ch itself — and the
chosen node's rendered text equals the scalar's string form.  Both shapes
of ch are covered by the two conjuncts; the binding key is read after the
attribute pass, whose result attrs' the replacement keeps. -/
theorem fillKey_scalar_replace (data : JVal) (tag : String)
    (attrs attrs' : List (String × String)) (kids content : List Node)
    (k : String) (v : JVal) (hsc : isStrNum v = true) :
    (fillAttrsE data kids attrs = .ok attrs' →
      bindingKeyOf tag attrs' = some k →
      hasMemberE data k = .ok true →
      getMemberD data k = v →
      fillNodes data [.elem tag attrs kids] =
        .ok [.elem tag attrs' (parseHTML (jsString v))] ∧
      renderedTextList [.elem tag attrs' (parseHTML (jsString v))] = jsString v) ∧
    (fillAttrsE data [] attrs = .ok attrs' →
      bindingKeyOf "template" attrs' = some k →
      hasMemberE data k = .ok true →
      getMemberD data k = v →
      fillNodes data [.tmpl attrs content] = .ok (parseHTML (jsString v)) ∧
      renderedTextList (parseHTML (jsString v)) = jsString v) := by
  have hobj := isStrNum_not_jsObject v hsc
  have hinner := innerHTMLStr_of_strNum v hsc
  constructor <;> intro h1 h2 h3 h4
  · refine ⟨?_, renderedTextList_elem_parseHTML ..⟩
    simp [fillNodes, processChild, isElemNode, h1, h2, h3, h4, hobj, hinner,
      Bind.bind, Except.bind, Pure.pure, Except.pure]
  · refine ⟨?_, renderedTextList_parseHTML _⟩
    simp [fillNodes, processChild, isElemNode, h1, h2, h3, h4, hobj, hinner,
      Bind.bind, Except.bind, Pure.pure, Except.pure]

/-- C1 witness: the spec scenario, template li bound to name filled from
record name = Ann, renders li with text Ann (the data-key attribute itself
stays on the element, as setAttribute never removed it). -/
theorem fillKey_scalar_replace_witness :
    fillNodes (.obj [("name", .str "Ann")]) [.elem "li" [("data-key", "name")] []] =
      .ok [.elem "li" [("data-key", "name")] [.text "Ann"]] ∧
    renderedTextList [.elem "li" [("data-key", "name")] [.text "Ann"]] = "Ann" := by
  have h := (fillKey_scalar_replace (.obj [("name", .str "Ann")]) "li"
    [("data-key", "name")] [("data-key", "name")] [] [] "name" (.str "Ann") rfl).1
    rfl rfl rfl rfl
  simpa [jsString, parseHTML] using h

/-- C2: fill calls reject without returning, so after rejecting on a
non-Element target the executor still consumes the records and appends the
filled content to the target whenever the target supports appendChild (a
DocumentFragment here): the promise rejects, yet the target is mutated —
the call does not fail as a whole. -/
theorem fill_rejects_but_still_mutates :
    (fill TKind.fragment true [Node.text "x"] [] [JVal.obj []]).settled =
      Settled.rejected "Target is not an element." ∧
    (fill TKind.fragment true [Node.text "x"] [] [JVal.obj []]).targetChildren =
      [Node.text "x"] := by
  constructor <;>
    simp [fill, fillRun, fillNodes, isElemNode, Bind.bind, Except.bind, Pure.pure,
      Except.pure]

/-- C7: attribute directives on one node are processed sequentially and
independently: the list pass always continues with the next directive
whatever the previous one did; a directive with parseable name and key
fields sets the attribute to the record value's string form when the key
is a member of the record; it leaves the attributes untouched when the
key is not a member; and a directive whose name or key field does not
parse (or whose membership test throws) is skipped without effect. -/
theorem attrDirective_behavior (data : JVal) (pd : String) (ds : List String)
    (attrs : List (String × String)) (nm ky : String) :
    (applyDirectives data (pd :: ds) attrs =
      applyDirectives data ds (applyDirective data pd attrs)) ∧
    (matchField "name" pd = some nm → matchField "key" pd = some ky →
      hasMemberE data ky = .ok true →
      applyDirective data pd attrs = setAttrJS attrs nm (jsString (getMemberD data ky))) ∧
    (matchField "name" pd = some nm → matchField "key" pd = some ky →
      hasMemberE data ky = .ok false →
      applyDirective data pd attrs = attrs) ∧
    (matchField "name" pd = none → applyDirective data pd attrs = attrs) ∧
    (matchField "name" pd = some nm → matchField "key" pd = none →
      applyDirective data pd attrs = attrs) := by
  refine ⟨rfl, ?_, ?_, ?_, ?_⟩
  · intro h1 h2 h3
    simp [applyDirective, h1, h2, h3]
  · intro h1 h2 h3
    simp [applyDirective, h1, h2, h3]
  · intro h1
    simp [applyDirective, h1]
  · intro h1 h2
    simp [applyDirective, h1, h2]

/-- C7 witness: the spec scenario, directive attr name href key url against
record url = /x sets href to /x; the same directive against a record
without url leaves the attributes untouched. -/
theorem attrDirective_behavior_witness :
    matchField "name" "name=\"href\" key=\"url\"" = some "href" ∧
    matchField "key" "name=\"href\" key=\"url\"" = some "url" ∧
    applyDirective (.obj [("url", .str "/x")]) "name=\"href\" key=\"url\"" [] =
      [("href", "/x")] ∧
    applyDirective (.obj []) "name=\"href\" key=\"url\"" [("q", "1")] = [("q", "1")] := by
  refine ⟨rfl, rfl, ?_, ?_⟩
  · have h := (attrDirective_behavior (.obj [("url", .str "/x")])
      "name=\"href\" key=\"url\"" [] [] "href" "url").2.1 rfl rfl rfl
    simpa [setAttrJS, jsString, getMemberD, jvalLookup] using h
  · exact (attrDirective_behavior (.obj []) "name=\"href\" key=\"url\""
      [] [("q", "1")] "href" "url").2.2.1 rfl rfl rfl

/-- C9: an attribute value that does not match the token regex is never
written: the guarded placeholder pass returns it unchanged, and even the
unguarded global replace would return the character list unchanged. -/
theorem placeholderPass_no_token_id (data : JVal) (v : String)
    (h : hasToken v = false) :
    applyPlaceholder data v = .ok v ∧
    replaceTokensWith (substCur data) v.toList = .ok v.toList := by
  have hf : findToken v.toList = none := by
    rcases hfind : findToken v.toList with _ | p
    · rfl
    · rw [hasToken, hfind] at h
      simp at h
  constructor
  · simp [applyPlaceholder, h]
  · rw [replaceTokensWith, hf]

/-- C9 witness: an ordinary literal value survives the placeholder pass
byte-identically. -/
theorem placeholderPass_no_token_id_witness :
    hasToken "Hello there" = false ∧
    applyPlaceholder (.obj [("x", .str "1")]) "Hello there" = .ok "Hello there" := by
  refine ⟨rfl, ?_⟩
  exact (placeholderPass_no_token_id (.obj [("x", .str "1")]) "Hello there" rfl).1

/-- Dispatch of the array branch: a child bound to a key whose record value
is an array is replaced by exactly the nodes the entry expansion yields
(shared by several statements below). -/
theorem fillNodes_array_dispatch_elem (data : JVal) (tag : String)
    (attrs attrs' : List (String × String)) (kids : List Node) (k : String)
    (entries : List JVal) (out : List Node)
    (h1 : fillAttrsE data kids attrs = .ok attrs')
    (h2 : bindingKeyOf tag attrs' = some k)
    (h3 : hasMemberE data k = .ok true)
    (h4 : getMemberD data k = .arr entries)
    (h5 : expandEntries data false tag attrs' kids entries = .ok out) :
    fillNodes data [.elem tag attrs kids] = .ok out := by
  simp [fillNodes, processChild, isElemNode, h1, h2, h3, h4, h5, isJsObject,
    Bind.bind, Except.bind, Pure.pure, Except.pure]

/-- Dispatch of the array branch for a template-wrapping child (the clones
are fresh copies of the wrapped content). -/
theorem fillNodes_array_dispatch_tmpl (data : JVal)
    (attrs attrs' : List (String × String)) (content : List Node) (k : String)
    (entries : List JVal) (out : List Node)
    (h1 : fillAttrsE data [] attrs = .ok attrs')
    (h2 : bindingKeyOf "template" attrs' = some k)
    (h3 : hasMemberE data k = .ok true)
    (h4 : getMemberD data k = .arr entries)
    (h5 : expandEntries data true "template" attrs' content entries = .ok out) :
    fillNodes data [.tmpl attrs content] = .ok out := by
  simp [fillNodes, processChild, isElemNode, h1, h2, h3, h4, h5, isJsObject,
    Bind.bind, Except.bind, Pure.pure, Except.pure]

theorem entryFill_elem_length (data : JVal) (tag : String)
    (attrs : List (String × String)) (kids : List Node) (e : JVal) (l : List Node)
    (h : entryFill data false tag attrs kids e = .ok l) : l.length = 1 := by
  rw [entryFill] at h
  rw [if_neg Bool.false_ne_true] at h
  split at h
  · rcases hf : fillAttrsE data kids attrs with _ | a2 <;>
      rw [hf] at h <;> simp [Bind.bind, Except.bind, Pure.pure, Except.pure] at h
    rw [← h]
    rfl
  · rcases hf : fillNodes e kids with _ | ks <;>
      rw [hf] at h <;> simp [Bind.bind, Except.bind, Pure.pure, Except.pure] at h
    rw [← h]
    rfl

theorem expandEntries_elem_length (data : JVal) (tag : String)
    (attrs : List (String × String)) (kids : List Node) :
    ∀ (entries : List JVal) (out : List Node),
      expandEntries data false tag attrs kids entries = .ok out →
      out.length = entries.length := by
  intro entries
  induction entries with
  | nil => intro out h; rw [expandEntries] at h; cases h; rfl
  | cons e rest ih =>
    intro out h
    rw [expandEntries] at h
    rcases hf : entryFill data false tag attrs kids e with _ | l <;> rw [hf] at h <;>
      simp [Bind.bind, Except.bind, Pure.pure, Except.pure] at h
    rcases hm : expandEntries data false tag attrs kids rest with _ | more <;>
      rw [hm] at h <;> simp [Bind.bind, Except.bind, Pure.pure, Except.pure] at h
    rw [← h]
    simp [List.length_append, entryFill_elem_length data tag attrs kids e l hf, ih more hm]
    omega

/-- C3 counterexample: a template-wrapping stencil with a scalar array
entry.  The claim says the entry's clone is attribute-filled against the
record and "gets the entry as its rendered text"; in the code the clone is
a DocumentFragment, on which setAttribute throws (caught as a warning) and
el.innerHTML = entry is an inert expando write, so the content clone (text
hi inside b) is inserted unchanged and its rendered text is hi, not the
entry x. -/
theorem fillKey_array_tmpl_scalar_counterexample :
    fillNodes (.obj [("tags", .arr [.str "x"])])
      [.tmpl [("data-key", "tags")] [.elem "b" [] [.text "hi"]]] =
      .ok [.elem "b" [] [.text "hi"]] ∧
    renderedTextList [.elem "b" [] [.text "hi"]] ≠ jsString (.str "x") := by
  constructor
  · have hef : entryFill (.obj [("tags", .arr [.str "x"])]) true "template"
        [("data-key", "tags")] [.elem "b" [] [.text "hi"]] (.str "x") =
        .ok [.elem "b" [] [.text "hi"]] :=
      entryFill_tmpl_scalar _ _ _ _ _ rfl
    have hee : expandEntries (.obj [("tags", .arr [.str "x"])]) true "template"
        [("data-key", "tags")] [.elem "b" [] [.text "hi"]] [.str "x"] =
        .ok [.elem "b" [] [.text "hi"]] :=
      expandEntries_cons _ _ _ _ _ _ _ _ _ hef (expandEntries_nil _ _ _ _ _)
    have hpc : processChild (.obj [("tags", .arr [.str "x"])])
        (.tmpl [("data-key", "tags")] [.elem "b" [] [.text "hi"]]) =
        .ok [.elem "b" [] [.text "hi"]] :=
      processChild_tmpl_arr _ _ _ _ _ "tags" _ rfl rfl rfl rfl hee
    exact fillNodes_singleton _ _ _ rfl hpc
  · decide

/-- C3 (amended): a node bound to an array key is replaced by the single
fragment collecting the per-entry stencil clones in entry order.  For a
plain-element stencil there are exactly record[key].length clones: a
scalar entry's clone is attribute-filled against the whole record (not
the entry) and rendered as the entry's text, an object entry's clone is
filled by the recursive TreeFiller call against that entry.  For a
template-wrapping stencil each entry contributes a fresh clone of the
wrapped content: recursively filled against the entry when the entry is
an object, but inserted unchanged when the entry is a scalar (attribute
fill and the innerHTML assignment have no effect on a fragment clone). -/
theorem fillKey_array_expand (data : JVal) (tag : String)
    (attrs attrs' a2 : List (String × String)) (kids content : List Node)
    (k : String) (entries : List JVal) :
    (∀ out, fillAttrsE data kids attrs = .ok attrs' →
      bindingKeyOf tag attrs' = some k →
      hasMemberE data k = .ok true →
      getMemberD data k = .arr entries →
      expandEntries data false tag attrs' kids entries = .ok out →
      fillNodes data [.elem tag attrs kids] = .ok out ∧
        out.length = entries.length) ∧
    (∀ out, fillAttrsE data [] attrs = .ok attrs' →
      bindingKeyOf "template" attrs' = some k →
      hasMemberE data k = .ok true →
      getMemberD data k = .arr entries →
      expandEntries data true "template" attrs' content entries = .ok out →
      fillNodes data [.tmpl attrs content] = .ok out) ∧
    (∀ e, isStrNum e = true →
      fillAttrsE data kids attrs' = .ok a2 →
      entryFill data false tag attrs' kids e =
        .ok [.elem tag a2 (parseHTML (jsString e))]) ∧
    (∀ e, isStrNum e = true →
      entryFill data true tag attrs' content e = .ok content) ∧
    (∀ e kids', isStrNum e = false →
      fillNodes e kids = .ok kids' →
      entryFill data false tag attrs' kids e = .ok [.elem tag attrs' kids']) ∧
    (∀ e out', isStrNum e = false →
      fillNodes e content = .ok out' →
      entryFill data true tag attrs' content e = .ok out') := by
  refine ⟨?_, ?_, ?_, ?_, ?_, ?_⟩
  · intro out h1 h2 h3 h4 h5
    exact ⟨fillNodes_array_dispatch_elem data tag attrs attrs' kids k entries out
      h1 h2 h3 h4 h5, expandEntries_elem_length data tag attrs' kids entries out h5⟩
  · intro out h1 h2 h3 h4 h5
    exact fillNodes_array_dispatch_tmpl data attrs attrs' content k entries out
      h1 h2 h3 h4 h5
  · intro e he hA
    have := innerHTMLStr_of_strNum e he
    simp [entryFill, he, hA, this, Bind.bind, Except.bind, Pure.pure, Except.pure]
  · intro e he
    simp [entryFill, he]
  · intro e kids' he hk
    simp [entryFill, he, hk, Bind.bind, Except.bind, Pure.pure, Except.pure]
  · intro e out' he ho
    simp [entryFill, he, ho]

/-- C3 witness: the spec scenario — li bound to tags with a span bound to
label inside, record tags = [(label x), (label y)] — yields two li copies,
in entry order, each filled against its own entry. -/
theorem fillKey_array_expand_witness :
    expandEntries (.obj [("tags", .arr [.obj [("label", .str "x")], .obj [("label", .str "y")]])])
      false "li" [("data-key", "tags")] [.elem "span" [("data-key", "label")] []]
      [.obj [("label", .str "x")], .obj [("label", .str "y")]] =
      .ok [.elem "li" [("data-key", "tags")] [.elem "span" [("data-key", "label")] [.text "x"]],
           .elem "li" [("data-key", "tags")] [.elem "span" [("data-key", "label")] [.text "y"]]] ∧
    fillNodes (.obj [("tags", .arr [.obj [("label", .str "x")], .obj [("label", .str "y")]])])
      [.elem "li" [("data-key", "tags")] [.elem "span" [("data-key", "label")] []]] =
      .ok [.elem "li" [("data-key", "tags")] [.elem "span" [("data-key", "label")] [.text "x"]],
           .elem "li" [("data-key", "tags")] [.elem "span" [("data-key", "label")] [.text "y"]]] ∧
    ([.elem "li" [("data-key", "tags")] [.elem "span" [("data-key", "label")] [.text "x"]],
      .elem "li" [("data-key", "tags")] [.elem "span" [("data-key", "label")] [.text "y"]]] :
      List Node).length =
      ([.obj [("label", .str "x")], .obj [("label", .str "y")]] : List JVal).length := by
  have hsp1 : processChild (.obj [("label", .str "x")])
      (.elem "span" [("data-key", "label")] []) =
      .ok [.elem "span" [("data-key", "label")] [.text "x"]] :=
    processChild_elem_scalar _ _ _ [("data-key", "label")] _ "label" (.str "x")
      rfl rfl rfl rfl rfl
  have hsp2 : processChild (.obj [("label", .str "y")])
      (.elem "span" [("data-key", "label")] []) =
      .ok [.elem "span" [("data-key", "label")] [.text "y"]] :=
    processChild_elem_scalar _ _ _ [("data-key", "label")] _ "label" (.str "y")
      rfl rfl rfl rfl rfl
  have hef1 : entryFill (.obj [("tags", .arr [.obj [("label", .str "x")], .obj [("label", .str "y")]])])
      false "li" [("data-key", "tags")] [.elem "span" [("data-key", "label")] []]
      (.obj [("label", .str "x")]) =
      .ok [.elem "li" [("data-key", "tags")] [.elem "span" [("data-key", "label")] [.text "x"]]] :=
    entryFill_elem_obj _ _ _ _ _ _ rfl
      (fillNodes_singleton _ (.elem "span" [("data-key", "label")] []) _ rfl hsp1)
  have hef2 : entryFill (.obj [("tags", .arr [.obj [("label", .str "x")], .obj [("label", .str "y")]])])
      false "li" [("data-key", "tags")] [.elem "span" [("data-key", "label")] []]
      (.obj [("label", .str "y")]) =
      .ok [.elem "li" [("data-key", "tags")] [.elem "span" [("data-key", "label")] [.text "y"]]] :=
    entryFill_elem_obj _ _ _ _ _ _ rfl
      (fillNodes_singleton _ (.elem "span" [("data-key", "label")] []) _ rfl hsp2)
  have hexp : expandEntries (.obj [("tags", .arr [.obj [("label", .str "x")], .obj [("label", .str "y")]])])
      false "li" [("data-key", "tags")] [.elem "span" [("data-key", "label")] []]
      [.obj [("label", .str "x")], .obj [("label", .str "y")]] =
      .ok [.elem "li" [("data-key", "tags")] [.elem "span" [("data-key", "label")] [.text "x"]],
           .elem "li" [("data-key", "tags")] [.elem "span" [("data-key", "label")] [.text "y"]]] :=
    expandEntries_cons _ _ _ _ _ _ _ _ _ hef1
      (expandEntries_cons _ _ _ _ _ _ _ _ _ hef2 (expandEntries_nil _ _ _ _ _))
  have hmain := ((fillKey_array_expand
    (.obj [("tags", .arr [.obj [("label", .str "x")], .obj [("label", .str "y")]])])
    "li" [("data-key", "tags")] [("data-key", "tags")] [("data-key", "tags")]
    [.elem "span" [("data-key", "label")] []] []
    "tags" [.obj [("label", .str "x")], .obj [("label", .str "y")]]).1
    [.elem "li" [("data-key", "tags")] [.elem "span" [("data-key", "label")] [.text "x"]],
     .elem "li" [("data-key", "tags")] [.elem "span" [("data-key", "label")] [.text "y"]]]
    rfl rfl rfl rfl hexp)
  exact ⟨hexp, hmain.1, rfl⟩

/-- Per-entry clone groups of the array branch: the nodes each entry's
stencil clone contributes, kept per entry instead of concatenated. -/
def entryGroups (data : JVal) (isT : Bool) (tag : String)
    (attrs : List (String × String)) (kids : List Node) :
    List JVal → Except Unit (List (List Node))
  | [] => .ok []
  | e :: rest => do
    let g ← entryFill data isT tag attrs kids e
    let gs ← entryGroups data isT tag attrs kids rest
    .ok (g :: gs)

theorem expandEntries_eq_join (data : JVal) (isT : Bool) (tag : String)
    (attrs : List (String × String)) (kids : List Node) :
    ∀ (entries : List JVal) (gs : List (List Node)),
      entryGroups data isT tag attrs kids entries = .ok gs →
      expandEntries data isT tag attrs kids entries = .ok gs.flatten := by
  intro entries
  induction entries with
  | nil =>
    intro gs h
    rw [entryGroups] at h
    cases h
    rw [expandEntries]
    rfl
  | cons e rest ih =>
    intro gs h
    rw [entryGroups] at h
    rcases hf : entryFill data isT tag attrs kids e with _ | g <;> rw [hf] at h <;>
      simp [Bind.bind, Except.bind, Pure.pure, Except.pure] at h
    rcases hm : entryGroups data isT tag attrs kids rest with _ | gs' <;> rw [hm] at h <;>
      simp [Bind.bind, Except.bind, Pure.pure, Except.pure] at h
    rw [expandEntries, hf, ih gs' hm, ← h]
    simp [Bind.bind, Except.bind, Pure.pure, Except.pure, List.flatten]

/-- C8: a node bound to an array key is only a stencil.  The node itself
never reaches the output: what replaces it is exactly the flattening of
the per-entry clone groups (one group per array entry, in entry order —
in the DOM each group consists of freshly cloned nodes, never the stencil),
and for the empty array nothing replaces it at all.  Both stencil shapes
(plain element cloned per entry, template wrapper whose content fragment
is cloned per entry) are covered. -/
theorem arrayBound_node_is_stencil (data : JVal) (tag : String)
    (attrs attrs' : List (String × String)) (kids content : List Node)
    (k : String) (entries : List JVal) (gs : List (List Node)) :
    (∀ out, fillAttrsE data kids attrs = .ok attrs' →
      bindingKeyOf tag attrs' = some k →
      hasMemberE data k = .ok true →
      getMemberD data k = .arr entries →
      entryGroups data false tag attrs' kids entries = .ok gs →
      out = gs.flatten →
      fillNodes data [.elem tag attrs kids] = .ok out ∧
        gs.length = entries.length ∧
        (entries = [] → fillNodes data [.elem tag attrs kids] = .ok [])) ∧
    (∀ out, fillAttrsE data [] attrs = .ok attrs' →
      bindingKeyOf "template" attrs' = some k →
      hasMemberE data k = .ok true →
      getMemberD data k = .arr entries →
      entryGroups data true "template" attrs' content entries = .ok gs →
      out = gs.flatten →
      fillNodes data [.tmpl attrs content] = .ok out ∧
        (entries = [] → fillNodes data [.tmpl attrs content] = .ok [])) := by
  have hlen : ∀ (es : List JVal) (gs' : List (List Node)),
      entryGroups data false tag attrs' kids es = .ok gs' → gs'.length = es.length := by
    intro es
    induction es with
    | nil => intro gs' h; rw [entryGroups] at h; cases h; rfl
    | cons e rest ih =>
      intro gs' h
      rw [entryGroups] at h
      rcases hf : entryFill data false tag attrs' kids e with _ | g <;> rw [hf] at h <;>
        simp [Bind.bind, Except.bind, Pure.pure, Except.pure] at h
      rcases hm : entryGroups data false tag attrs' kids rest with _ | gs'' <;>
        rw [hm] at h <;> simp [Bind.bind, Except.bind, Pure.pure, Except.pure] at h
      rw [← h]
      simp [ih gs'' hm]
  constructor
  · intro out h1 h2 h3 h4 h5 h6
    subst h6
    have hexp := expandEntries_eq_join data false tag attrs' kids entries gs h5
    refine ⟨fillNodes_array_dispatch_elem data tag attrs attrs' kids k entries _
      h1 h2 h3 h4 hexp, hlen entries gs h5, ?_⟩
    intro hnil
    subst hnil
    rw [entryGroups] at h5
    cases h5
    exact fillNodes_array_dispatch_elem data tag attrs attrs' kids k [] []
      h1 h2 h3 h4 (by rw [expandEntries])
  · intro out h1 h2 h3 h4 h5 h6
    subst h6
    have hexp := expandEntries_eq_join data true "template" attrs' content entries gs h5
    refine ⟨fillNodes_array_dispatch_tmpl data attrs attrs' content k entries _
      h1 h2 h3 h4 hexp, ?_⟩
    intro hnil
    subst hnil
    exact fillNodes_array_dispatch_tmpl data attrs attrs' content k [] []
      h1 h2 h3 h4 (by rw [expandEntries])

/-- C8 witness: a li bound to array key xs whose value is the empty array
is removed outright — the stencil leaves no trace in the output. -/
theorem arrayBound_node_is_stencil_witness :
    fillNodes (.obj [("xs", .arr [])]) [.elem "li" [("data-key", "xs")] []] = .ok [] := by
  have h := ((arrayBound_node_is_stencil (.obj [("xs", .arr [])]) "li"
    [("data-key", "xs")] [("data-key", "xs")] [] [] "xs" [] []).1
    [] rfl rfl rfl rfl (by rw [entryGroups]) rfl)
  exact h.2.2 rfl

/-- C10 counterexample: record b = true on a div bound to b that has a
span bound to x inside, with x = y present in the record.  The claim says
the older revision "leaves such a node untouched and scans its children";
scanning would fill the span (old scalar handling sets its text to y in
place).  In fact the old guard `key && key in data` is satisfied, none of
its three inner branches matches a boolean, and the children are pushed
only in the guard's else branch — so the subtree stays completely
untouched and renders no y text. -/
theorem old_bool_no_child_scan_counterexample :
    oldFillNodes (.obj [("b", .bool true), ("x", .str "y")])
      [.elem "div" [("data-key", "b")] [.elem "span" [("data-key", "x")] []]] =
      .ok [.elem "div" [("data-key", "b")] [.elem "span" [("data-key", "x")] []]] ∧
    renderedTextList
      [.elem "div" [("data-key", "b")] [.elem "span" [("data-key", "x")] []]] ≠ "y" := by
  constructor
  · have hpc : oldProcessChild (.obj [("b", .bool true), ("x", .str "y")])
        (.elem "div" [("data-key", "b")] [.elem "span" [("data-key", "x")] []]) =
        .ok [.elem "div" [("data-key", "b")] [.elem "span" [("data-key", "x")] []]] :=
      oldProcessChild_elem_bool _ _ _ [("data-key", "b")] _ "b" true rfl rfl rfl rfl
    exact oldFillNodes_singleton _ _ _ rfl hpc
  · decide

/-- C10 (amended): for every record where record[key] is present and is a
boolean, the current revision of fillKey takes the scalar-replace branch
(the value is not an instanceof Object): the bound node's rendered text
becomes the boolean's string form and the node is replaced in place.  The
older revision instead matches none of its branches (typeof boolean is
neither string/number nor object), so it leaves the node untouched —
without scanning its children, which are pushed only when the
`key && key in data` guard fails. -/
theorem fillKey_bool_revisions (data : JVal) (tag : String)
    (attrs attrsC attrsO : List (String × String)) (kids : List Node)
    (k : String) (b : Bool) :
    (fillAttrsE data kids attrs = .ok attrsC →
      bindingKeyOf tag attrsC = some k →
      hasMemberE data k = .ok true →
      getMemberD data k = .bool b →
      fillNodes data [.elem tag attrs kids] =
        .ok [.elem tag attrsC (parseHTML (if b then "true" else "false"))]) ∧
    (oldFillAttrsE data kids attrs = .ok attrsO →
      nonEmptyS (getAttr attrsO "data-key") = some k →
      hasMemberE data k = .ok true →
      getMemberD data k = .bool b →
      oldFillNodes data [.elem tag attrs kids] = .ok [.elem tag attrsO kids]) := by
  constructor
  · intro h1 h2 h3 h4
    simp [fillNodes, processChild, isElemNode, h1, h2, h3, h4, isJsObject,
      innerHTMLStr, jsString, Bind.bind, Except.bind, Pure.pure, Except.pure]
  · intro h1 h2 h3 h4
    simp [oldFillNodes, oldProcessChild, isElemNode, h1, h2, h3, h4, isStrNum,
      jsTypeofObject, Bind.bind, Except.bind, Pure.pure, Except.pure]

/-- C10 witness: div bound to flag = true: the current revision renders
div with text true; the older revision returns the div untouched. -/
theorem fillKey_bool_revisions_witness :
    fillNodes (.obj [("flag", .bool true)]) [.elem "div" [("data-key", "flag")] []] =
      .ok [.elem "div" [("data-key", "flag")] [.text "true"]] ∧
    oldFillNodes (.obj [("flag", .bool true)]) [.elem "div" [("data-key", "flag")] []] =
      .ok [.elem "div" [("data-key", "flag")] []] := by
  have h := fillKey_bool_revisions (.obj [("flag", .bool true)]) "div"
    [("data-key", "flag")] [("data-key", "flag")] [("data-key", "flag")] [] "flag" true
  have hA : fillAttrsE (.obj [("flag", .bool true)]) []
      [("data-key", "flag")] = .ok [("data-key", "flag")] := rfl
  have hO : oldFillAttrsE (.obj [("flag", .bool true)]) []
      [("data-key", "flag")] = .ok [("data-key", "flag")] := rfl
  constructor
  · have := h.1 hA rfl rfl rfl
    simpa [parseHTML] using this
  · exact h.2 hO rfl rfl rfl

theorem fillRun_element_of_fillAll (content : List Node) :
    ∀ (records : List JVal) (outs : List Node),
      fillAll content records = .ok outs →
      fillRun TKind.element content records = (outs, outs, true) := by
  intro records
  induction records with
  | nil =>
    intro outs h
    rw [fillAll] at h
    cases h
    rw [fillRun]
  | cons r rest ih =>
    intro outs h
    rw [fillAll] at h
    rcases hf : fillNodes r content with _ | a <;> rw [hf] at h <;>
      simp [Bind.bind, Except.bind, Pure.pure, Except.pure] at h
    rcases hm : fillAll content rest with _ | b <;> rw [hm] at h <;>
      simp [Bind.bind, Except.bind, Pure.pure, Except.pure] at h
    rw [fillRun, hf, ih b hm, ← h]

/-- C5: a fill call on a valid element target and template whose records
all fill without throwing resolves with exactly the nodes it inserted,
and the target's final child list is its previous children followed by
those same nodes: per record, in yield order, one cloned-and-filled copy
of the template content is appended (fillAll is the per-record
concatenation, so insertion order equals yield order and nothing is
reordered). -/
theorem fill_resolves_with_inserted_nodes (content targetChildren : List Node)
    (records : List JVal) (outs : List Node)
    (h : fillAll content records = .ok outs) :
    (fill TKind.element true content targetChildren records).settled =
      .resolved outs ∧
    (fill TKind.element true content targetChildren records).targetChildren =
      targetChildren ++ outs := by
  have hrun := fillRun_element_of_fillAll content records outs h
  constructor <;> simp [fill, hrun]

/-- C5 witness: two records yield two li copies, inserted after the
target's existing child and resolved in yield order. -/
theorem fill_resolves_with_inserted_nodes_witness :
    fillAll [.elem "li" [("data-key", "name")] []]
      [.obj [("name", .str "Ann")], .obj [("name", .str "Bo")]] =
      .ok [.elem "li" [("data-key", "name")] [.text "Ann"],
           .elem "li" [("data-key", "name")] [.text "Bo"]] ∧
    (fill TKind.element true [.elem "li" [("data-key", "name")] []] [.text "pre"]
        [.obj [("name", .str "Ann")], .obj [("name", .str "Bo")]]).settled =
      .resolved [.elem "li" [("data-key", "name")] [.text "Ann"],
                 .elem "li" [("data-key", "name")] [.text "Bo"]] ∧
    (fill TKind.element true [.elem "li" [("data-key", "name")] []] [.text "pre"]
        [.obj [("name", .str "Ann")], .obj [("name", .str "Bo")]]).targetChildren =
      [.text "pre", .elem "li" [("data-key", "name")] [.text "Ann"],
       .elem "li" [("data-key", "name")] [.text "Bo"]] := by
  have hp1 : processChild (.obj [("name", .str "Ann")])
      (.elem "li" [("data-key", "name")] []) =
      .ok [.elem "li" [("data-key", "name")] [.text "Ann"]] :=
    processChild_elem_scalar _ _ _ [("data-key", "name")] _ "name" (.str "Ann")
      rfl rfl rfl rfl rfl
  have hp2 : processChild (.obj [("name", .str "Bo")])
      (.elem "li" [("data-key", "name")] []) =
      .ok [.elem "li" [("data-key", "name")] [.text "Bo"]] :=
    processChild_elem_scalar _ _ _ [("data-key", "name")] _ "name" (.str "Bo")
      rfl rfl rfl rfl rfl
  have hall : fillAll [.elem "li" [("data-key", "name")] []]
      [.obj [("name", .str "Ann")], .obj [("name", .str "Bo")]] =
      .ok [.elem "li" [("data-key", "name")] [.text "Ann"],
           .elem "li" [("data-key", "name")] [.text "Bo"]] :=
    fillAll_cons _ _ _ _ _
      (fillNodes_singleton _ (.elem "li" [("data-key", "name")] []) _ rfl hp1)
      (fillAll_cons _ _ _ _ _
        (fillNodes_singleton _ (.elem "li" [("data-key", "name")] []) _ rfl hp2)
        (fillAll_nil _))
  have h := fill_resolves_with_inserted_nodes [.elem "li" [("data-key", "name")] []]
    [.text "pre"] [.obj [("name", .str "Ann")], .obj [("name", .str "Bo")]]
    [.elem "li" [("data-key", "name")] [.text "Ann"],
     .elem "li" [("data-key", "name")] [.text "Bo"]] hall
  exact ⟨hall, h.1, h.2⟩

/-- Modelled from the spec: the claimed placeholder path resolution —
"walks the record object field by field; if any segment is missing or the
current value is not an object-like container, the substitution yields an
empty result", the reached value rendering as its string form.  Stated for
comparison against the code's pathReduce. -/
def specResolve : List String → JVal → String
  | [], v => jsString v
  | cur :: rest, v =>
    match v with
    | .obj fs =>
      match jvalLookup fs cur with
      | some w => specResolve rest w
      | none => ""
    | .arr xs =>
      if cur == "length" then specResolve rest (.num (Int.ofNat xs.length))
      else
        match strToIndex cur xs.length with
        | some i => specResolve rest (xs.getD i .null)
        | none => ""
    | _ => ""

/-- Modelled from the spec: the claimed whole-value substitution — every
token replaced by the specResolve walk of its dot-separated path, other
text kept. -/
def specReplaceTokens (data : JVal) (cs : List Char) : List Char :=
  match hfind : findToken cs with
  | none => cs
  | some (p, inner, rest) =>
    p ++ (specResolve ((splitDots inner).map (fun l => String.mk l)) data).toList ++
      specReplaceTokens data rest
termination_by cs.length
decreasing_by exact findToken_rest_lt cs p inner rest hfind

theorem pathReduce_emptyStr : ∀ segs, pathReduce segs (.str "") = .ok (.str "")
  | [] => rfl
  | _ :: rest => pathReduce_emptyStr rest

theorem noNulls_lookup : ∀ (fs : List (String × JVal)) (k : String) (w : JVal),
    noNullsFields fs = true → jvalLookup fs k = some w → noNulls w = true := by
  intro fs
  induction fs with
  | nil => intro k w _ hl; simp [jvalLookup] at hl
  | cons p r ih =>
    intro k w h hl
    obtain ⟨a, v⟩ := p
    rw [noNullsFields, Bool.and_eq_true] at h
    rw [jvalLookup] at hl
    split at hl
    · cases hl; exact h.1
    · exact ih k w h.2 hl

theorem noNulls_getD_arr : ∀ (xs : List JVal), noNullsArr xs = true →
    ∀ i, i < xs.length → noNulls (xs.getD i .null) = true := by
  intro xs
  induction xs with
  | nil => intro _ i hi; simp at hi
  | cons v r ih =>
    intro h i hi
    rw [noNullsArr, Bool.and_eq_true] at h
    cases i with
    | zero => exact h.1
    | succ j =>
      simp only [List.getD_cons_succ]
      exact ih h.2 j (by simpa using hi)

theorem strToIndex_lt (k : String) (len i : Nat) (h : strToIndex k len = some i) :
    i < len := by
  rw [strToIndex] at h
  split at h
  · split at h
    · rename_i hcond
      cases h
      exact (Bool.and_eq_true ..|>.mp hcond).2 |> of_decide_eq_true
    · exact Option.noConfusion h
  · exact Option.noConfusion h

/-- Away from null, the code's path walk computes exactly the spec's
field-by-field resolution. -/
theorem pathReduce_spec : ∀ (segs : List String) (acc : JVal),
    noNulls acc = true →
    (pathReduce segs acc).map jsString = .ok (specResolve segs acc) := by
  intro segs
  induction segs with
  | nil => intro acc _; rfl
  | cons cur rest ih =>
    intro acc h
    cases acc with
    | null => simp [noNulls] at h
    | str s =>
      rw [pathReduce, pathReduce_emptyStr]
      · rfl
      all_goals simp
    | num n =>
      rw [pathReduce, pathReduce_emptyStr]
      · rfl
      all_goals simp
    | bool b =>
      rw [pathReduce, pathReduce_emptyStr]
      · rfl
      all_goals simp
    | obj fs =>
      rw [noNulls] at h
      rcases hl : jvalLookup fs cur with _ | w
      · rw [pathReduce]
        simp only [hasMemberE, hl, Option.isSome_none]
        rw [pathReduce_emptyStr]
        simp [specResolve, hl, jsString]
        rfl
      · rw [pathReduce]
        simp only [hasMemberE, hl, Option.isSome_some]
        have hw := noNulls_lookup fs cur w h hl
        have hg : getMemberD (.obj fs) cur = w := by simp [getMemberD, hl]
        rw [hg]
        rw [ih w hw]
        simp [specResolve, hl]
    | arr xs =>
      rw [noNulls] at h
      rw [pathReduce]
      by_cases hlen : cur == "length"
      · simp only [hasMemberE, hlen, Bool.true_or]
        have hg : getMemberD (.arr xs) cur = .num (Int.ofNat xs.length) := by
          simp [getMemberD, hlen]
        rw [hg, ih (.num (Int.ofNat xs.length)) rfl]
        simp [specResolve, hlen]
      · rcases hidx : strToIndex cur xs.length with _ | i
        · simp only [hasMemberE, hlen, hidx, Bool.false_or, Option.isSome_none]
          rw [pathReduce_emptyStr]
          simp [specResolve, hlen, hidx, jsString]
          rfl
        · simp only [hasMemberE, hlen, hidx, Bool.false_or, Option.isSome_some]
          have hg : getMemberD (.arr xs) cur = xs.getD i .null := by
            simp [getMemberD, hlen, hidx]
          rw [hg, ih (xs.getD i .null)
            (noNulls_getD_arr xs h i (strToIndex_lt cur xs.length i hidx))]
          simp [specResolve, hlen, hidx]

theorem substCur_spec (data : JVal) (inner : List Char) (h : noNulls data = true) :
    substCur data inner =
      .ok (specResolve ((splitDots inner).map (fun l => String.mk l)) data) := by
  have hmap := pathReduce_spec ((splitDots inner).map (fun l => String.mk l)) data h
  rw [substCur]
  rcases hp : pathReduce ((splitDots inner).map (fun l => String.mk l)) data with _ | v <;>
    rw [hp] at hmap <;> simp [Except.map] at hmap
  simp [Bind.bind, Except.bind, Pure.pure, Except.pure, hmap]

theorem replaceTokensWith_spec (data : JVal) (hd : noNulls data = true) :
    ∀ (n : Nat) (cs : List Char), cs.length ≤ n →
      replaceTokensWith (substCur data) cs = .ok (specReplaceTokens data cs) := by
  intro n
  induction n with
  | zero =>
    intro cs hlen
    have : cs = [] := List.length_eq_zero.mp (Nat.le_zero.mp hlen)
    subst this
    rw [replaceTokensWith, specReplaceTokens]
    rfl
  | succ n ih =>
    intro cs hlen
    rcases hfind : findToken cs with _ | ⟨p, inner, rest⟩
    · rw [replaceTokensWith, specReplaceTokens, hfind]
    · have hr := findToken_rest_lt cs p inner rest hfind
      rw [replaceTokensWith, specReplaceTokens, hfind]
      dsimp only
      rw [substCur_spec data inner hd, ih rest (by omega)]
      simp [Bind.bind, Except.bind, Pure.pure, Except.pure]

/-- C4 (amended): on records containing no null value, every ${path} token
behaves exactly as claimed: the attribute pass replaces each token with the
record value reached by walking the dot-separated path field by field, and
a missing segment or a non-container current value makes that token's
substitution the empty string (first conjunct: the code's walk equals the
spec's field-by-field resolution; second conjunct: the whole attribute
value is rewritten token by token accordingly).  When a walk meets a null
value with segments remaining, however, the code throws a TypeError
instead (typeof null is 'object', so `cur in acc` runs on null), which
escapes the placeholder pass — see the counterexample. -/
theorem placeholder_path_walk (data : JVal) (v : String) (segs : List String)
    (h : noNulls data = true) :
    (pathReduce segs data).map jsString = .ok (specResolve segs data) ∧
    applyPlaceholder data v = .ok (String.mk (specReplaceTokens data v.toList)) := by
  refine ⟨pathReduce_spec segs data h, ?_⟩
  rw [applyPlaceholder]
  by_cases ht : hasToken v
  · rw [if_pos ht]
    rw [replaceTokensWith_spec data h v.toList.length v.toList (Nat.le_refl _)]
    rfl
  · rw [if_neg ht]
    rw [hasToken] at ht
    rcases hfind : findToken v.toList with _ | t
    · rw [specReplaceTokens, hfind]
      rfl
    · rw [hfind] at ht
      simp at ht

/-- C4 counterexample: with data user = null, the token ${user.name} does
not yield the empty string — the path walk throws (typeof null is
'object', so the guard passes and `'name' in null` raises a TypeError),
and the exception escapes the placeholder pass, so the claimed result
"Hello " is never produced. -/
theorem placeholder_null_path_counterexample :
    applyPlaceholder (.obj [("user", .null)]) "Hello ${user.name}" = .error () ∧
    (Except.error () : Except Unit String) ≠ .ok "Hello " := by
  constructor
  · have hfind : findToken (String.toList "Hello ${user.name}") =
        some ("Hello ".toList, "user.name".toList, []) := rfl
    rw [applyPlaceholder, if_pos (by rw [hasToken, hfind]; rfl)]
    rw [replaceTokensWith, hfind]
    dsimp only
    have hsub : substCur (.obj [("user", .null)]) "user.name".toList = .error () := rfl
    rw [hsub]
    rfl
  · intro hcontra
    exact Except.noConfusion hcontra

/-- C4 witness: the spec scenario on null-free data — Hello ${user.name}
against user.name = Bo gives Hello Bo, and against a record whose user
object lacks name gives Hello (trailing space): the missing segment
yields the empty string. -/
theorem placeholder_path_walk_witness :
    noNulls (.obj [("user", .obj [("name", .str "Bo")])]) = true ∧
    applyPlaceholder (.obj [("user", .obj [("name", .str "Bo")])])
      "Hello ${user.name}" = .ok "Hello Bo" ∧
    applyPlaceholder (.obj [("user", .obj [])]) "Hello ${user.name}" = .ok "Hello " := by
  refine ⟨rfl, ?_, ?_⟩
  · have h := (placeholder_path_walk (.obj [("user", .obj [("name", .str "Bo")])])
      "Hello ${user.name}" [] rfl).2
    rw [h]
    have h1 : findToken (String.toList "Hello ${user.name}") =
        some ("Hello ".toList, "user.name".toList, []) := rfl
    rw [specReplaceTokens, h1]
    dsimp only
    rw [specReplaceTokens]
    rfl
  · have h := (placeholder_path_walk (.obj [("user", .obj [])])
      "Hello ${user.name}" [] rfl).2
    rw [h]
    have h1 : findToken (String.toList "Hello ${user.name}") =
        some ("Hello ".toList, "user.name".toList, []) := rfl
    rw [specReplaceTokens, h1]
    dsimp only
    rw [specReplaceTokens]
    rfl

/-- Structure of a node with attributes forgotten (the round-trip claim is
about structure; the attribute pass may rewrite attribute values even on
retained nodes). -/
inductive Shape where
  | elem (tag : String) (kids : List Shape)
  | tmpl (content : List Shape)
  | text (s : String)
  | pi (ptarget : String) (pdata : String)

mutual
def shapeOf : Node → Shape
  | .elem tag _ kids => .elem tag (shapesOf kids)
  | .tmpl _ content => .tmpl (shapesOf content)
  | .text s => .text s
  | .pi t d => .pi t d

def shapesOf : List Node → List Shape
  | [] => []
  | n :: r => shapeOf n :: shapesOf r
end

mutual
/-- Every node the fillKey traversal visits and finds bound has its key
absent from the record (and its attribute pass succeeds); the traversal
looks through keyless elements but not into the content of an unbound
template wrapper, whose inert content fillKey never visits. -/
def noBoundKeys (data : JVal) : List Node → Bool
  | [] => true
  | n :: r => noBoundKey1 data n && noBoundKeys data r

def noBoundKey1 (data : JVal) : Node → Bool
  | .elem tag attrs kids =>
    (match fillAttrsE data kids attrs with
     | .error _ => false
     | .ok attrs' =>
       match bindingKeyOf tag attrs' with
       | some k => (match hasMemberE data k with | .ok false => true | _ => false)
       | none => noBoundKeys data kids)
  | .tmpl attrs _ =>
    (match fillAttrsE data [] attrs with
     | .error _ => false
     | .ok attrs' =>
       match bindingKeyOf "template" attrs' with
       | some k => (match hasMemberE data k with | .ok false => true | _ => false)
       | none => true)
  | _ => true
end

mutual
/-- Shapes the fill is claimed to leave behind when every visited bound
node's key is absent: bound nodes vanish, keyless elements stay with their
children pruned recursively, everything else stays as-is. -/
def pruneShapes (data : JVal) : List Node → List Shape
  | [] => []
  | n :: r => pruneShape1 data n ++ pruneShapes data r

def pruneShape1 (data : JVal) : Node → List Shape
  | .elem tag attrs kids =>
    (match fillAttrsE data kids attrs with
     | .error _ => [shapeOf (.elem tag attrs kids)]
     | .ok attrs' =>
       match bindingKeyOf tag attrs' with
       | some _ => []
       | none => [.elem tag (pruneShapes data kids)])
  | .tmpl attrs content =>
    (match fillAttrsE data [] attrs with
     | .error _ => [shapeOf (.tmpl attrs content)]
     | .ok attrs' =>
       match bindingKeyOf "template" attrs' with
       | some _ => []
       | none => [.tmpl (shapesOf content)])
  | n => [shapeOf n]
end

theorem shapesOf_append : ∀ (l1 l2 : List Node),
    shapesOf (l1 ++ l2) = shapesOf l1 ++ shapesOf l2 := by
  intro l1 l2
  induction l1 with
  | nil => rfl
  | cons n r ih => simp [shapesOf, ih]

theorem Node.sizeOf_pos (n : Node) : 0 < sizeOf n := by
  cases n <;> simp_arith

theorem fillNodes_prune_aux : ∀ (N : Nat) (data : JVal) (ns : List Node),
    sizeOf ns ≤ N → noBoundKeys data ns = true →
    ∀ out, fillNodes data ns = .ok out → shapesOf out = pruneShapes data ns := by
  intro N
  induction N with
  | zero =>
    intro data ns hle
    cases ns <;> simp_arith at hle
  | succ N ihN =>
    intro data ns hle hnb out hfill
    cases ns with
    | nil =>
      rw [fillNodes] at hfill
      cases hfill
      rfl
    | cons n rest =>
      rw [noBoundKeys, Bool.and_eq_true] at hnb
      have hrest_le : sizeOf rest ≤ N := by
        have := Node.sizeOf_pos n
        have hcons : sizeOf (n :: rest) = 1 + sizeOf n + sizeOf rest := by simp_arith
        omega
      rw [fillNodes] at hfill
      cases n with
      | text s =>
        rw [if_neg (by simp [isElemNode])] at hfill
        rcases hb : fillNodes data rest with _ | b <;> rw [hb] at hfill <;>
          simp [Bind.bind, Except.bind, Pure.pure, Except.pure] at hfill
        rw [← hfill]
        rw [shapesOf, pruneShapes, ihN data rest hrest_le hnb.2 b hb]
        rfl
      | pi t d =>
        rw [if_neg (by simp [isElemNode])] at hfill
        rcases hb : fillNodes data rest with _ | b <;> rw [hb] at hfill <;>
          simp [Bind.bind, Except.bind, Pure.pure, Except.pure] at hfill
        rw [← hfill]
        rw [shapesOf, pruneShapes, ihN data rest hrest_le hnb.2 b hb]
        rfl
      | elem tag attrs kids =>
        have hkids_le : sizeOf kids ≤ N := by
          have hcons : sizeOf (Node.elem tag attrs kids :: rest) =
              1 + sizeOf (Node.elem tag attrs kids) + sizeOf rest := by simp_arith
          have helem : sizeOf kids < sizeOf (Node.elem tag attrs kids) := by simp_arith
          omega
        rw [if_pos (by simp [isElemNode])] at hfill
        have hnb1 := hnb.1
        rw [noBoundKey1] at hnb1
        rcases hA : fillAttrsE data kids attrs with _ | attrs' <;> rw [hA] at hnb1
        · simp at hnb1
        · dsimp only at hnb1
          rw [processChild] at hfill
          rw [hA] at hfill
          simp only [Bind.bind, Except.bind] at hfill
          rcases hkey : bindingKeyOf tag attrs' with _ | k <;> rw [hkey] at hnb1 hfill <;>
            dsimp only at hnb1 hfill
          · rcases hk : fillNodes data kids with _ | kids' <;> rw [hk] at hfill <;>
              simp [Bind.bind, Except.bind, Pure.pure, Except.pure] at hfill
            rcases hb : fillNodes data rest with _ | b <;> rw [hb] at hfill <;>
              simp [Bind.bind, Except.bind, Pure.pure, Except.pure] at hfill
            rw [← hfill]
            have e1 := ihN data kids hkids_le hnb1 kids' hk
            have e2 := ihN data rest hrest_le hnb.2 b hb
            simp [shapesOf, shapeOf, pruneShapes, pruneShape1, hA, hkey, e1, e2,
              shapesOf_append]
          · have hmem : hasMemberE data k = .ok false := by
              rcases hm : hasMemberE data k with _ | c
              · rw [hm] at hnb1; simp at hnb1
              · cases c
                · rfl
                · rw [hm] at hnb1; simp at hnb1
            rw [hmem] at hfill
            simp only [Pure.pure, Except.pure] at hfill
            rcases hb : fillNodes data rest with _ | b <;> rw [hb] at hfill <;>
              simp [Bind.bind, Except.bind, Pure.pure, Except.pure, if_neg] at hfill
            rw [← hfill]
            have e2 := ihN data rest hrest_le hnb.2 b hb
            simp [shapesOf, shapeOf, pruneShapes, pruneShape1, hA, hkey, e2,
              shapesOf_append]
      | tmpl attrs content =>
        rw [if_pos (by simp [isElemNode])] at hfill
        have hnb1 := hnb.1
        rw [noBoundKey1] at hnb1
        rcases hA : fillAttrsE data [] attrs with _ | attrs' <;> rw [hA] at hnb1
        · simp at hnb1
        · dsimp only at hnb1
          rw [processChild] at hfill
          rw [hA] at hfill
          simp only [Bind.bind, Except.bind] at hfill
          rcases hkey : bindingKeyOf "template" attrs' with _ | k <;> rw [hkey] at hnb1 hfill <;>
            dsimp only at hnb1 hfill
          · rcases hb : fillNodes data rest with _ | b <;> rw [hb] at hfill <;>
              simp [Bind.bind, Except.bind, Pure.pure, Except.pure] at hfill
            rw [← hfill]
            have e2 := ihN data rest hrest_le hnb.2 b hb
            simp [shapesOf, shapeOf, pruneShapes, pruneShape1, hA, hkey, e2,
              shapesOf_append]
          · have hmem : hasMemberE data k = .ok false := by
              rcases hm : hasMemberE data k with _ | c
              · rw [hm] at hnb1; simp at hnb1
              · cases c
                · rfl
                · rw [hm] at hnb1; simp at hnb1
            rw [hmem] at hfill
            simp only [Pure.pure, Except.pure] at hfill
            rcases hb : fillNodes data rest with _ | b <;> rw [hb] at hfill <;>
              simp [Bind.bind, Except.bind, Pure.pure, Except.pure, if_neg] at hfill
            rw [← hfill]
            have e2 := ihN data rest hrest_le hnb.2 b hb
            simp [shapesOf, shapeOf, pruneShapes, pruneShape1, hA, hkey, e2,
              shapesOf_append]

/-- C6: a visited child whose binding key (read after the attribute pass)
is present on the node but absent from the record is removed from its
parent without error — fillKey yields no replacement nodes for it (first
two conjuncts, both child shapes).  Consequently (third conjunct), filling
any child list all of whose visited bound nodes have keys absent from the
record yields exactly the pruned structure: every bound node removed,
unbound wrapper structure (keyless elements, text, processing
instructions, unbound template wrappers with their inert content)
retained. -/
theorem missingKey_removes_node (data : JVal) (tag : String)
    (attrs attrs' : List (String × String)) (kids content : List Node)
    (k : String) (ns out : List Node) :
    (fillAttrsE data kids attrs = .ok attrs' →
      bindingKeyOf tag attrs' = some k →
      hasMemberE data k = .ok false →
      fillNodes data [.elem tag attrs kids] = .ok []) ∧
    (fillAttrsE data [] attrs = .ok attrs' →
      bindingKeyOf "template" attrs' = some k →
      hasMemberE data k = .ok false →
      fillNodes data [.tmpl attrs content] = .ok []) ∧
    (noBoundKeys data ns = true → fillNodes data ns = .ok out →
      shapesOf out = pruneShapes data ns) := by
  refine ⟨?_, ?_, ?_⟩
  · intro h1 h2 h3
    simp [fillNodes, processChild, isElemNode, h1, h2, h3, Bind.bind, Except.bind,
      Pure.pure, Except.pure]
  · intro h1 h2 h3
    simp [fillNodes, processChild, isElemNode, h1, h2, h3, Bind.bind, Except.bind,
      Pure.pure, Except.pure]
  · intro h1 h2
    exact fillNodes_prune_aux (sizeOf ns) data ns (Nat.le_refl _) h1 out h2

/-- C6 witness: a keyless div wrapping a bound span, a bound p, and a text
node, filled against the empty record: both bound nodes are removed, the
wrapper div and the text survive, and the result's shape is exactly the
pruned shape. -/
theorem missingKey_removes_node_witness :
    fillNodes (.obj []) [.elem "p" [("data-key", "y")] []] = .ok [] ∧
    noBoundKeys (.obj [])
      [.elem "div" [] [.elem "span" [("data-key", "x")] []],
       .elem "p" [("data-key", "y")] [], .text "t"] = true ∧
    fillNodes (.obj [])
      [.elem "div" [] [.elem "span" [("data-key", "x")] []],
       .elem "p" [("data-key", "y")] [], .text "t"] =
      .ok [.elem "div" [] [], .text "t"] ∧
    shapesOf [.elem "div" [] [], .text "t"] =
      pruneShapes (.obj [])
        [.elem "div" [] [.elem "span" [("data-key", "x")] []],
         .elem "p" [("data-key", "y")] [], .text "t"] := by
  have hsp : processChild (.obj []) (.elem "span" [("data-key", "x")] []) = .ok [] :=
    processChild_elem_removed _ _ _ [("data-key", "x")] _ "x" rfl rfl rfl
  have hdiv : processChild (.obj []) (.elem "div" [] [.elem "span" [("data-key", "x")] []]) =
      .ok [.elem "div" [] []] :=
    processChild_elem_keyless _ _ _ [] _ [] rfl rfl
      (fillNodes_singleton _ (.elem "span" [("data-key", "x")] []) _ rfl hsp)
  have hp : processChild (.obj []) (.elem "p" [("data-key", "y")] []) = .ok [] :=
    processChild_elem_removed _ _ _ [("data-key", "y")] _ "y" rfl rfl rfl
  have hfill : fillNodes (.obj [])
      [.elem "div" [] [.elem "span" [("data-key", "x")] []],
       .elem "p" [("data-key", "y")] [], .text "t"] =
      .ok [.elem "div" [] [], .text "t"] :=
    fillNodes_cons_elem _ (.elem "div" [] [.elem "span" [("data-key", "x")] []]) _ _ _
      rfl hdiv
      (fillNodes_cons_elem _ (.elem "p" [("data-key", "y")] []) _ _ _ rfl hp
        (fillNodes_cons_skip _ (.text "t") _ _ rfl (fillNodes_nil _)))
  refine ⟨?_, rfl, hfill, ?_⟩
  · exact (missingKey_removes_node (.obj []) "p" [("data-key", "y")]
      [("data-key", "y")] [] [] "y" [] []).1 rfl rfl rfl
  · exact (missingKey_removes_node (.obj []) "p" [("data-key", "y")]
      [("data-key", "y")] [] [] "y"
      [.elem "div" [] [.elem "span" [("data-key", "x")] []],
       .elem "p" [("data-key", "y")] [], .text "t"]
      [.elem "div" [] [], .text "t"]).2.2 rfl hfill
